import Mathlib

/-!
Verification of the hlsdl segment-download engine (hlsdl.go).

The Go source is embedded shallowly: pure computations become Lean
functions, stateful loops become explicit state passing, and the
external effects the engine consults (HTTP responses, file sizes,
decryption, I/O failures) become explicit oracle parameters, so that
every definition is executable on concrete inputs.
-/

namespace Hlsdl

/-! ## Segment data model (hlsdl.go, `Segment` / `DownloadResult`)

`Segment` carries the fields of the Go struct that the engine itself
reads or writes: the media-sequence id (from the embedded
`m3u8.MediaSegment`), the segment URI, the staging `Path`, and the
`Exists` flag set by the resume scanner. -/

structure Segment where
  SeqId : Nat
  URI : String
  Path : String
  Exists : Bool
deriving DecidableEq, Repr

instance : Inhabited Segment := ⟨⟨0, "", "", false⟩⟩

/-- `DownloadResult` as in hlsdl.go: the completion signal a fetch task
sends back to the coordinator.  Go's `error` is modelled as
`Option String` (`none` = nil error). -/
structure DownloadResult where
  Err : Option String
  SeqId : Nat
deriving DecidableEq, Repr

/-! ## Staging-path computation (hlsdl.go lines 212-214)

The dispatch goroutine computes
`segName := fmt.Sprintf("seg%06d.ts", segment.SeqId)` and
`segment.Path = filepath.Join(hlsDl.dir, segName)`.

Go's `%06d` verb prints the decimal digits of the operand, left-padded
with zeros to a minimum width of 6 (wider operands are printed in
full).  Decimal rendering of a `uint64` is modelled by Lean's decimal
`toString` on `Nat`. -/

def padZeros6 (s : String) : String :=
  String.mk (List.replicate (6 - s.length) '0') ++ s

/-- Model of `fmt.Sprintf` applied to the literal format
`seg%06d.ts` at a natural-number operand. -/
def go_sprintf_seg06d (id : Nat) : String :=
  "seg" ++ padZeros6 (toString id) ++ ".ts"

/-- Model of Go's `filepath.Join dir name` for a clean directory
argument with no trailing separator: the empty directory yields the
name unchanged, otherwise the two parts are joined with `/`. -/
def goFilepathJoin (dir name : String) : String :=
  if dir = "" then name else dir ++ "/" ++ name

/-- The staging path assigned by the dispatch goroutine
(hlsdl.go lines 212-214), as a function of the working directory and
the segment's sequence id. -/
def stagingPath (dir : String) (id : Nat) : String :=
  goFilepathJoin dir (go_sprintf_seg06d id)

/-- Written from the spec's words (§3, §6): staging files follow the
fixed naming scheme of the literal `seg`, the sequence id zero-padded
to 6 digits, and the extension `.ts`. -/
def specStagingName (id : Nat) : String :=
  let ds := toString id
  "seg" ++ (if ds.length < 6 then String.mk (List.replicate (6 - ds.length) '0') ++ ds else ds)
    ++ ".ts"

/-! ## Resume scanner, thorough mode (hlsdl.go lines 122-137)

For each segment the scanner walks the globbed file list; on a path
match it calls `getFileSize` (an `os.Stat`) and `getSegmentSize` (an
HTTP `HEAD`), and sets `Exists` when both succeed and report the same
nonzero size.  The two size functions are oracles of the scan:
`fsize` maps a staging path to the stat-reported size (`none` = stat
error), `hsize` maps a segment URI to the HEAD-reported content
length (`none` = failed HEAD request). -/

structure ScanEnv where
  fsize : String → Option Int
  hsize : String → Option Int

/-- The size comparison of the thorough branch (hlsdl.go line 129):
`e1 == nil && e2 == nil && l1 == l2 && l1 != 0`. -/
def thoroughCheck (env : ScanEnv) (s : Segment) : Bool :=
  match env.fsize s.Path, env.hsize s.URI with
  | some l1, some l2 => l1 == l2 && l1 != 0
  | _, _ => false

/-- The inner loop of the thorough branch for one segment: fold over
the globbed files, setting the flag when the path matches and the
size check passes (the flag is never cleared). -/
def thoroughMark (env : ScanEnv) (files : List String) (s : Segment) : Bool :=
  files.foldl
    (fun ex f => if s.Path = f then (if thoroughCheck env s then true else ex) else ex)
    s.Exists

/-- The whole thorough scan (hlsdl.go lines 122-137). -/
def thoroughScan (env : ScanEnv) (files : List String) (segs : List Segment) : List Segment :=
  segs.map fun s => { s with Exists := thoroughMark env files s }

/-! ### Helper lemmas for the thorough scan -/

theorem thoroughMark_foldl (env : ScanEnv) (s : Segment) :
    ∀ (files : List String) (b : Bool),
      files.foldl
        (fun ex f => if s.Path = f then (if thoroughCheck env s then true else ex) else ex) b
        = (b || (files.any (fun f => s.Path == f) && thoroughCheck env s)) := by
  intro files
  induction files with
  | nil => intro b; simp
  | cons f rest ih =>
    intro b
    rw [List.foldl_cons, ih]
    cases hc : thoroughCheck env s
    · by_cases hf : s.Path = f <;> simp [hf, hc]
    · by_cases hf : s.Path = f
      · simp [hf, hc]
      · simp [hf, hc]
        cases b <;> simp [hf]

theorem thoroughCheck_iff (env : ScanEnv) (s : Segment) :
    thoroughCheck env s = true ↔
      ∃ l : Int, env.fsize s.Path = some l ∧ env.hsize s.URI = some l ∧ l ≠ 0 := by
  unfold thoroughCheck
  cases h1 : env.fsize s.Path with
  | none => simp
  | some l1 =>
    cases h2 : env.hsize s.URI with
    | none => simp
    | some l2 =>
      constructor
      · intro h
        have hb := (Bool.and_eq_true _ _).mp h
        refine ⟨l1, rfl, ?_, ?_⟩
        · have : l1 = l2 := by
            have := hb.1; simpa [beq_iff_eq] using this
          rw [this]
        · have := hb.2
          simpa [bne_iff_ne] using this
      · rintro ⟨l, hl1, hl2, hne⟩
        have e1 : l1 = l := by simpa using hl1
        have e2 : l2 = l := by simpa using hl2
        subst e1; subst e2
        simp [bne_iff_ne, hne]

/-- Claim C4: in thorough resume mode, a segment is marked `Exists`
if and only if a staging file whose path matches the segment's path is
in the globbed file list, the stat of the local file and the HEAD
request for the segment's URI both succeed, and the two reported
sizes agree on a nonzero value (hlsdl.go lines 122-137). -/
theorem thorough_scan_marks_iff (env : ScanEnv) (files : List String) (segs : List Segment)
    (hall : ∀ s ∈ segs, s.Exists = false) :
    ∀ s' ∈ thoroughScan env files segs,
      (s'.Exists = true ↔
        (s'.Path ∈ files ∧
          ∃ l : Int, env.fsize s'.Path = some l ∧ env.hsize s'.URI = some l ∧ l ≠ 0)) := by
  intro s' hs'
  rcases List.mem_map.mp hs' with ⟨s, hs, rfl⟩
  have h0 : s.Exists = false := hall s hs
  show thoroughMark env files s = true ↔ _
  rw [thoroughMark, thoroughMark_foldl, h0]
  simp only [Bool.false_or, Bool.and_eq_true, List.any_eq_true, beq_iff_eq]
  constructor
  · rintro ⟨⟨f, hf, hpf⟩, hc⟩
    exact ⟨hpf ▸ hf, (thoroughCheck_iff env s).mp hc⟩
  · rintro ⟨hmem, hex⟩
    exact ⟨⟨s.Path, hmem, rfl⟩, (thoroughCheck_iff env s).mpr hex⟩

/-- Concrete scan environment used by witnesses: the staging file at
path `p` stats to size 4, and the HEAD request for URI `u` reports
content length 4. -/
def wScanEnv : ScanEnv where
  fsize := fun p => if p = "p" then some 4 else none
  hsize := fun u => if u = "u" then some 4 else none

/-- Concrete segment used by witnesses of the thorough-mode claim. -/
def wSeg : Segment := ⟨3, "u", "p", false⟩

/-- Witness for claim C4: the theorem instantiated at a concrete
environment, file list and segment, with the marked flag evaluated. -/
theorem thorough_scan_marks_iff_witness :
    ({ wSeg with Exists := thoroughMark wScanEnv ["p"] wSeg } ∈
        thoroughScan wScanEnv ["p"] [wSeg]) ∧
      (({ wSeg with Exists := thoroughMark wScanEnv ["p"] wSeg } : Segment).Exists = true ↔
        (wSeg.Path ∈ ["p"] ∧
          ∃ l : Int, wScanEnv.fsize wSeg.Path = some l ∧ wScanEnv.hsize wSeg.URI = some l ∧
            l ≠ 0)) := by
  constructor
  · simp [thoroughScan]
  · exact thorough_scan_marks_iff wScanEnv ["p"] [wSeg]
      (by intro s hs; simp at hs; rw [hs]; rfl)
      { wSeg with Exists := thoroughMark wScanEnv ["p"] wSeg }
      (by simp [thoroughScan])

/-! ## Resume scanner, fast mode (hlsdl.go lines 138-164)

Two loops over the globbed file list, both with `int` indices that
run downwards:

* loop 1: `for i := len(files) - 1 - workers; i >= 0; i--` marks every
  segment whose path equals `files[i]` as existing, unconditionally;
* loop 2: `for i := len(files) - 1; i >= len(files)-1-workers; i--`
  marks a matching segment only when the stat size equals the
  HEAD-reported size.

Loop 2's body indexes `files[i]` (inside the inner segment loop)
without a lower bound on `i`, so when `len(files) <= workers` and the
segment list is nonempty the program panics with an index out of
range; the scan result is modelled as `Option`, `none` standing for
that panic.  Loop 2's size comparison (line 156) compares the two
`(int64, error)` returns directly, which Go rejects; it is modelled
as the evident intent, the test of the thorough branch without the
nonzero requirement: both calls succeed and report equal sizes. -/

/-- The descending index sequence `hi, hi-1, ..., lo` of a Go
`for i := hi; i >= lo; i--` loop. -/
def downRange (hi lo : Int) : List Int :=
  (List.range (hi + 1 - lo).toNat).map (fun k : Nat => hi - (k : Int))

/-- `files[i]` for an `int` index: `none` models the index-out-of-range
panic for a negative or too-large index. -/
def lookupI (files : List String) (i : Int) : Option String :=
  if i < 0 then none else files.get? i.toNat

/-- The size comparison of the fast branch (hlsdl.go line 156),
modelled as: stat and HEAD both succeed and report the same size. -/
def fastCheck (env : ScanEnv) (s : Segment) : Bool :=
  match env.fsize s.Path, env.hsize s.URI with
  | some l1, some l2 => l1 == l2
  | _, _ => false

/-- One iteration of loop 1: mark every segment whose path is
`files[i]`.  Loop 1's guard keeps `i` in bounds, so the `none` branch
is never reached there. -/
def mark1At (files : List String) (i : Int) (segs : List Segment) : List Segment :=
  match lookupI files i with
  | some f => segs.map fun s => if s.Path = f then { s with Exists := true } else s
  | none => segs

/-- Loop 1 of the fast scan (hlsdl.go lines 141-147). -/
def runLoop1 (files : List String) (idxs : List Int) (segs : List Segment) : List Segment :=
  idxs.foldl (fun acc i => mark1At files i acc) segs

/-- One iteration of loop 2: `files[i]` is evaluated inside the inner
loop over segments, so with no segments nothing is indexed; otherwise
an out-of-range index is the panic (`none`), and a valid one marks
matching segments that pass the size check. -/
def verifyAt (env : ScanEnv) (files : List String) (i : Int) (segs : List Segment) :
    Option (List Segment) :=
  match segs with
  | [] => some []
  | _ :: _ =>
    match lookupI files i with
    | none => none
    | some f =>
      some (segs.map fun s =>
        if s.Path = f then (if fastCheck env s then { s with Exists := true } else s) else s)

/-- Loop 2 of the fast scan (hlsdl.go lines 150-163). -/
def runLoop2 (env : ScanEnv) (files : List String) : List Int → List Segment → Option (List Segment)
  | [], segs => some segs
  | i :: rest, segs =>
    match verifyAt env files i segs with
    | none => none
    | some segs' => runLoop2 env files rest segs'

/-- The whole fast scan (hlsdl.go lines 138-164), for `workers = W`. -/
def fastScan (env : ScanEnv) (files : List String) (W : Nat) (segs : List Segment) :
    Option (List Segment) :=
  let M : Int := files.length
  runLoop2 env files (downRange (M - 1) (M - 1 - W))
    (runLoop1 files (downRange (M - 1 - W) 0) segs)

/-- Does index `i` name the file that segment `s` stages to? -/
def hitAt (files : List String) (i : Int) (s : Segment) : Bool :=
  lookupI files i == some s.Path

/-- Pointwise effect of loop 1 over an index list. -/
def mark1Pred (files : List String) (idxs : List Int) (s : Segment) : Bool :=
  idxs.any (fun i => hitAt files i s)

/-- Pointwise effect of loop 2 over an index list. -/
def mark2Pred (env : ScanEnv) (files : List String) (idxs : List Int) (s : Segment) : Bool :=
  idxs.any (fun i => hitAt files i s && fastCheck env s)

/-! ### Closed forms for the two loops -/

theorem mem_downRange {hi lo i : Int} : i ∈ downRange hi lo ↔ lo ≤ i ∧ i ≤ hi := by
  unfold downRange
  constructor
  · intro hmem
    rcases List.mem_map.mp hmem with ⟨k, hk, rfl⟩
    have hk' := Int.lt_toNat.mp (List.mem_range.mp hk)
    omega
  · rintro ⟨h1, h2⟩
    apply List.mem_map.mpr
    refine ⟨(hi - i).toNat, List.mem_range.mpr ?_, ?_⟩
    · exact Int.lt_toNat.mpr (by rw [Int.toNat_of_nonneg (by omega)]; omega)
    · rw [Int.toNat_of_nonneg (by omega)]
      omega

theorem mark1At_eq_map (files : List String) (i : Int) (segs : List Segment) :
    mark1At files i segs =
      segs.map (fun s => if hitAt files i s then { s with Exists := true } else s) := by
  unfold mark1At hitAt
  cases h : lookupI files i with
  | none => simp [h]
  | some f =>
    simp only [h]
    apply List.map_congr_left
    intro s _
    by_cases hp : s.Path = f
    · simp [hp]
    · have : ¬ f = s.Path := fun hh => hp hh.symm
      simp [hp, this]

theorem runLoop1_closed (files : List String) :
    ∀ (idxs : List Int) (segs : List Segment),
      runLoop1 files idxs segs =
        segs.map (fun s => if mark1Pred files idxs s then { s with Exists := true } else s) := by
  intro idxs
  induction idxs with
  | nil =>
    intro segs
    simp [runLoop1, mark1Pred]
  | cons i rest ih =>
    intro segs
    show runLoop1 files rest (mark1At files i segs) = _
    rw [ih, mark1At_eq_map, List.map_map]
    apply List.map_congr_left
    intro s _
    simp only [Function.comp]
    by_cases h1 : hitAt files i s = true
    · have hp : mark1Pred files rest { s with Exists := true } = mark1Pred files rest s := rfl
      by_cases h2 : mark1Pred files rest s = true
      · simp [h1, hp, h2, mark1Pred]
      · simp [h1, hp, h2, mark1Pred]
    · have h1' : hitAt files i s = false := by
        cases h : hitAt files i s
        · rfl
        · exact absurd h h1
      by_cases h2 : mark1Pred files rest s = true
      · simp [h1', h2, mark1Pred]
      · simp [h1', h2, mark1Pred]

theorem verifyAt_eq (env : ScanEnv) (files : List String) (i : Int) (segs : List Segment)
    (hv : lookupI files i ≠ none ∨ segs = []) :
    verifyAt env files i segs = some (segs.map (fun s =>
      if hitAt files i s && fastCheck env s then { s with Exists := true } else s)) := by
  cases segs with
  | nil => rfl
  | cons a rest =>
    have hv' : lookupI files i ≠ none := by
      rcases hv with h | h
      · exact h
      · exact absurd h (by simp)
    cases hl : lookupI files i with
    | none => exact absurd hl hv'
    | some f =>
      show verifyAt env files i (a :: rest) = _
      unfold verifyAt
      rw [hl]
      refine congrArg some (List.map_congr_left ?_)
      intro s _
      have hhit : hitAt files i s = (f == s.Path) := by
        unfold hitAt; rw [hl]; rfl
      by_cases hp : s.Path = f
      · by_cases hc : fastCheck env s = true
        · simp [hp, hc, hhit]
        · have hc' : fastCheck env s = false := by
            cases h : fastCheck env s
            · rfl
            · exact absurd h hc
          simp [hp, hc', hhit]
      · have : ¬ f = s.Path := fun hh => hp hh.symm
        simp [hp, hhit, this]

theorem runLoop2_some_eq (env : ScanEnv) (files : List String) :
    ∀ (idxs : List Int) (segs segs' : List Segment),
      runLoop2 env files idxs segs = some segs' →
      segs' = segs.map
        (fun s => if mark2Pred env files idxs s then { s with Exists := true } else s) := by
  intro idxs
  induction idxs with
  | nil =>
    intro segs segs' h
    have : segs = segs' := by simpa [runLoop2] using h
    subst this
    simp [mark2Pred]
  | cons i rest ih =>
    intro segs segs' h
    rcases hseg : segs with _ | ⟨a, tl⟩
    · subst hseg
      have h0 : runLoop2 env files rest ([] : List Segment) = some segs' := by
        simpa [runLoop2, verifyAt] using h
      have := ih [] segs' h0
      simpa using this
    · subst hseg
      cases hl : lookupI files i with
      | none =>
        exfalso
        unfold runLoop2 verifyAt at h
        rw [hl] at h
        simp at h
      | some f =>
        have hv := verifyAt_eq env files i (a :: tl) (Or.inl (by rw [hl]; simp))
        unfold runLoop2 at h
        rw [hv] at h
        have hrec := ih _ segs' h
        rw [hrec, List.map_map]
        refine List.map_congr_left ?_
        intro s _
        simp only [Function.comp]
        have hm2 : ∀ t : List Int,
            mark2Pred env files t { s with Exists := true } = mark2Pred env files t s := by
          intro t; rfl
        have hcons : mark2Pred env files (i :: rest) s
            = ((hitAt files i s && fastCheck env s) || mark2Pred env files rest s) := by
          simp [mark2Pred]
        by_cases h1 : (hitAt files i s && fastCheck env s) = true
        · by_cases h2 : mark2Pred env files rest s = true
          · simp [h1, h2, hm2, hcons]
          · simp [h1, h2, hm2, hcons]
        · have h1' : (hitAt files i s && fastCheck env s) = false := by
            cases h : (hitAt files i s && fastCheck env s)
            · rfl
            · exact absurd h h1
          by_cases h2 : mark2Pred env files rest s = true
          · simp [h1', h2, hcons]
          · simp [h1', h2, hcons]

theorem runLoop2_valid_isSome (env : ScanEnv) (files : List String) :
    ∀ (idxs : List Int) (segs : List Segment),
      (∀ i ∈ idxs, lookupI files i ≠ none) →
      (runLoop2 env files idxs segs).isSome = true := by
  intro idxs
  induction idxs with
  | nil => intro segs _; rfl
  | cons i rest ih =>
    intro segs hval
    have hv := verifyAt_eq env files i segs (Or.inl (hval i (by simp)))
    unfold runLoop2
    rw [hv]
    exact ih _ (fun j hj => hval j (by simp [hj]))

theorem runLoop2_none (env : ScanEnv) (files : List String) :
    ∀ (idxs : List Int) (segs : List Segment), segs ≠ [] →
      (∃ i ∈ idxs, lookupI files i = none) →
      runLoop2 env files idxs segs = none := by
  intro idxs
  induction idxs with
  | nil =>
    intro segs _ hex
    rcases hex with ⟨i, hi, _⟩
    exact absurd hi (by simp)
  | cons i rest ih =>
    intro segs hne hex
    by_cases hl : lookupI files i = none
    · rcases segs with _ | ⟨a, tl⟩
      · exact absurd rfl hne
      · unfold runLoop2 verifyAt
        rw [hl]
    · have hv := verifyAt_eq env files i segs (Or.inl hl)
      unfold runLoop2
      rw [hv]
      refine ih _ (by simpa using hne) ?_
      rcases hex with ⟨j, hj, hjn⟩
      rcases List.mem_cons.mp hj with rfl | hj'
      · exact absurd hjn hl
      · exact ⟨j, hj', hjn⟩

/-- The per-segment predicate a successful fast scan applies: marked by
the trusting loop (indices `0 .. M-1-W`, the oldest `M-W` files), or
matched by the verifying loop (indices `M-1-W .. M-1`, the newest
`W+1` files) with the size check passing. -/
def fastPred (env : ScanEnv) (files : List String) (W : Nat) (s : Segment) : Bool :=
  mark1Pred files (downRange ((files.length : Int) - 1 - (W : Int)) 0) s
    || mark2Pred env files (downRange ((files.length : Int) - 1) ((files.length : Int) - 1 - (W : Int))) s

theorem fastScan_some_eq (env : ScanEnv) (files : List String) (W : Nat)
    (segs segs' : List Segment) (h : fastScan env files W segs = some segs') :
    segs' = segs.map
      (fun s => if fastPred env files W s then { s with Exists := true } else s) := by
  simp only [fastScan] at h
  rw [runLoop1_closed] at h
  have := runLoop2_some_eq env files _ _ _ h
  rw [this, List.map_map]
  refine List.map_congr_left ?_
  intro s _
  simp only [Function.comp, fastPred]
  have hm2 : mark2Pred env files (downRange ((files.length : Int) - 1)
        ((files.length : Int) - 1 - (W : Int))) { s with Exists := true }
      = mark2Pred env files (downRange ((files.length : Int) - 1)
        ((files.length : Int) - 1 - (W : Int))) s := rfl
  by_cases h1 : mark1Pred files (downRange ((files.length : Int) - 1 - (W : Int)) 0) s = true
  · by_cases h2 : mark2Pred env files (downRange ((files.length : Int) - 1)
        ((files.length : Int) - 1 - (W : Int))) s = true
    · simp [h1, h2, hm2]
    · simp [h1, h2, hm2]
  · have h1' : mark1Pred files (downRange ((files.length : Int) - 1 - (W : Int)) 0) s = false := by
      cases h : mark1Pred files (downRange ((files.length : Int) - 1 - (W : Int)) 0) s
      · rfl
      · exact absurd h h1
    by_cases h2 : mark2Pred env files (downRange ((files.length : Int) - 1)
        ((files.length : Int) - 1 - (W : Int))) s = true
    · simp [h1', h2]
    · simp [h1', h2]

theorem fastScan_isSome_of (env : ScanEnv) (files : List String) (W : Nat)
    (segs : List Segment) (hW : W + 1 ≤ files.length) :
    (fastScan env files W segs).isSome = true := by
  simp only [fastScan]
  apply runLoop2_valid_isSome
  intro i hi
  rcases mem_downRange.mp hi with ⟨h1, h2⟩
  have hWM : ((W : Int) + 1) ≤ (files.length : Int) := by exact_mod_cast hW
  have h0 : (0 : Int) ≤ i := by omega
  have hlen : i.toNat < files.length := by
    have : i < (files.length : Int) := by omega
    omega
  unfold lookupI
  rw [if_neg (by omega)]
  intro hcon
  exact absurd (List.get?_eq_none.mp hcon) (by omega)

theorem fastScan_closed (env : ScanEnv) (files : List String) (W : Nat)
    (segs : List Segment) (hW : W + 1 ≤ files.length) :
    fastScan env files W segs = some (segs.map
      (fun s => if fastPred env files W s then { s with Exists := true } else s)) := by
  obtain ⟨segs', hs⟩ := Option.isSome_iff_exists.mp (fastScan_isSome_of env files W segs hW)
  rw [hs, fastScan_some_eq env files W segs segs' hs]

theorem fastScan_panics_of (env : ScanEnv) (files : List String) (W : Nat)
    (segs : List Segment) (hM : files.length ≤ W) (hne : segs ≠ []) :
    fastScan env files W segs = none := by
  simp only [fastScan]
  apply runLoop2_none
  · rw [runLoop1_closed]
    simpa using hne
  · refine ⟨(files.length : Int) - 1 - (W : Int), mem_downRange.mpr ⟨le_refl _, by omega⟩, ?_⟩
    unfold lookupI
    have hWM : (files.length : Int) ≤ (W : Int) := by exact_mod_cast hM
    rw [if_pos (by omega)]

theorem downRange_length (hi lo : Int) : (downRange hi lo).length = (hi + 1 - lo).toNat := by
  simp [downRange]

/-- Claim C3 (amended): in fast resume mode with `workers = W` and `M`
globbed staging files, the trusting loop marks, without regard to any
size check, exactly the segments staged at the oldest `M - W` files
(indices `0 .. M-1-W`), and the verifying loop size-checks exactly the
newest `W + 1` files (indices `M-1-W .. M-1`); the file at index
`M-1-W` is covered by both loops.  This requires `M ≥ W + 1`: when
`M ≤ W` and the segment list is nonempty, loop 2 indexes `files` at a
negative position and the program panics (modelled as `none`). -/
theorem fast_scan_resume_characterization (env : ScanEnv) (files : List String) (W : Nat)
    (segs : List Segment) :
    (W + 1 ≤ files.length →
      fastScan env files W segs = some (segs.map
        (fun s => if fastPred env files W s then { s with Exists := true } else s)) ∧
      (downRange ((files.length : Int) - 1 - (W : Int)) 0).length = files.length - W ∧
      (downRange ((files.length : Int) - 1) ((files.length : Int) - 1 - (W : Int))).length
        = W + 1) ∧
    (files.length ≤ W → segs ≠ [] → fastScan env files W segs = none) := by
  constructor
  · intro hW
    refine ⟨fastScan_closed env files W segs hW, ?_, ?_⟩
    · rw [downRange_length]
      have : ((W : Int) + 1) ≤ (files.length : Int) := by exact_mod_cast hW
      omega
    · rw [downRange_length]
      omega
  · intro h1 h2
    exact fastScan_panics_of env files W segs h1 h2

/-- Concrete fast-scan input refuting claim C3 as stated: three staging
files, one worker, and size oracles under which every HEAD/stat
comparison fails (local size 5, content length 9). -/
def cexScanEnv : ScanEnv where
  fsize := fun _ => some 5
  hsize := fun _ => some 9

def cexFiles : List String := ["a", "b", "c"]

def cexSeg0 : Segment := ⟨0, "ua", "a", false⟩

def cexSeg1 : Segment := ⟨1, "ub", "b", false⟩

def cexSeg2 : Segment := ⟨2, "uc", "c", false⟩

def cexSegs : List Segment := [cexSeg0, cexSeg1, cexSeg2]

/-- The fast scan's output on the counterexample input. -/
def cexSegsOut : List Segment :=
  [⟨0, "ua", "a", true⟩, ⟨1, "ub", "b", true⟩, ⟨2, "uc", "c", false⟩]

/-- Claim C3 counterexample: with `W = 1` and `M = 3`, the claim says
exactly the oldest `M - (W+1) = 1` file is trusted without
verification and the newest `min(M, W+1) = 2` files are verified, so
with every size check failing only the oldest segment may end marked
`Exists` (flags `[true, false, false]`).  The code's trusting loop
runs over indices `0 .. M-1-W = 1`, so the second segment is also
marked unconditionally: the scan yields flags `[true, true, false]`. -/
theorem fast_scan_claimed_sets_refuted :
    Option.map (fun l => l.map Segment.Exists) (fastScan cexScanEnv cexFiles 1 cexSegs)
        = some [true, true, false] ∧
      fastCheck cexScanEnv cexSeg1 = false := by decide

/-- Witness for claim C3's amended theorem: both branches exercised at
concrete inputs — the characterization at `M = 3, W = 1`, and the
panic at `M = 1, W = 2` (resuming with fewer files than workers). -/
theorem fast_scan_resume_characterization_witness :
    fastScan cexScanEnv cexFiles 1 cexSegs = some (cexSegs.map
        (fun s => if fastPred cexScanEnv cexFiles 1 s then { s with Exists := true } else s)) ∧
      fastScan cexScanEnv ["a"] 2 cexSegs = none :=
  ⟨((fast_scan_resume_characterization cexScanEnv cexFiles 1 cexSegs).1 (by decide)).1,
    (fast_scan_resume_characterization cexScanEnv ["a"] 2 cexSegs).2 (by decide) (by decide)⟩

/-- Claim C10: the fast scan never resets a segment's `Exists` flag
from `true` to `false` (both loops only ever set it), and the segment
staged at the boundary index `M-1-W` — covered by the trusting loop
and the verifying loop — ends marked `Exists` regardless of the
outcome of its size comparison. -/
theorem fast_scan_never_clears (env : ScanEnv) (files : List String) (W : Nat)
    (segs segs' : List Segment) (h : fastScan env files W segs = some segs') :
    (∀ (k : Nat) (s s' : Segment), segs[k]? = some s → segs'[k]? = some s' →
        s.Exists = true → s'.Exists = true) ∧
    (W + 1 ≤ files.length →
      ∀ f, lookupI files ((files.length : Int) - 1 - (W : Int)) = some f →
        ∀ (k : Nat) (s s' : Segment), segs[k]? = some s → segs'[k]? = some s' → s.Path = f →
          s'.Exists = true) := by
  have heq := fastScan_some_eq env files W segs segs' h
  subst heq
  constructor
  · intro k s s' hk hk' hex
    rw [List.getElem?_map, hk] at hk'
    have hs' : (if fastPred env files W s then { s with Exists := true } else s) = s' :=
      Option.some.inj hk'
    by_cases hp : fastPred env files W s = true
    · rw [hp] at hs'
      simp at hs'
      rw [← hs']
    · have hp' : fastPred env files W s = false := by
        cases hq : fastPred env files W s
        · rfl
        · exact absurd hq hp
      rw [hp'] at hs'
      simp at hs'
      rw [← hs']
      exact hex
  · intro hW f hf k s s' hk hk' hpath
    rw [List.getElem?_map, hk] at hk'
    have hs' : (if fastPred env files W s then { s with Exists := true } else s) = s' :=
      Option.some.inj hk'
    have hWM : ((W : Int) + 1) ≤ (files.length : Int) := by exact_mod_cast hW
    have hmark : mark1Pred files (downRange ((files.length : Int) - 1 - (W : Int)) 0) s
        = true := by
      apply List.any_eq_true.mpr
      refine ⟨(files.length : Int) - 1 - (W : Int),
        mem_downRange.mpr ⟨by omega, le_refl _⟩, ?_⟩
      unfold hitAt
      rw [hf, hpath]
      simp
    have hp : fastPred env files W s = true := by
      unfold fastPred
      rw [hmark]
      rfl
    rw [hp] at hs'
    simp at hs'
    rw [← hs']

/-- Witness for claim C10: on the counterexample scan the flags only
ever grow; the boundary segment (staged at `files[1]`, whose size
check fails) is marked `Exists` in the output. -/
theorem fast_scan_never_clears_witness :
    fastScan cexScanEnv cexFiles 1 cexSegs = some cexSegsOut ∧
      (⟨1, "ub", "b", true⟩ : Segment).Exists = true := by
  refine ⟨by decide, ?_⟩
  exact (fast_scan_never_clears cexScanEnv cexFiles 1 cexSegs cexSegsOut (by decide)).2
    (by decide) ("b") (by decide) 1 cexSeg1 ⟨1, "ub", "b", true⟩ (by decide) (by decide) rfl

/-! ## Claim C9: staging-path determinism and format -/

/-- Claim C9: the staging path the dispatch goroutine assigns
(hlsdl.go lines 212-214) is the working directory joined with the
spec's fixed name — the literal `seg`, the sequence id zero-padded to
6 digits, and `.ts` — and it is a pure function of the sequence id
and directory, so computing it twice yields identical results; two
sample evaluations show the padding and the no-truncation behaviour
for ids of more than six digits. -/
theorem stagingPath_deterministic_format (dir : String) (id : Nat) :
    stagingPath dir id = goFilepathJoin dir (specStagingName id) ∧
    stagingPath dir id = stagingPath dir id ∧
    stagingPath ("download") 7 = "download/seg000007.ts" ∧
    stagingPath ("") 1234567 = "seg1234567.ts" := by
  refine ⟨?_, rfl, by decide, by decide⟩
  unfold stagingPath go_sprintf_seg06d specStagingName padZeros6
  by_cases h : (toString id).length < 6
  · simp [h]
  · have h6 : 6 - (toString id).length = 0 := by omega
    simp only [h, if_false, h6, List.replicate_zero]
    rfl

/-! ## Segment fetcher retry loop (hlsdl.go lines 179-206)

A fetch task runs the labelled `DOWNLOAD` loop per segment: it counts
the attempt, consults the quit channel, calls `downloadSegment`, and
on an error whose text contains the connection-reset pattern with
fewer than 3 attempts made it sleeps one second and retries; any
other error is sent to the result channel at once.  The k-th
`downloadSegment` outcome is an oracle `att k` (`none` = success).
The runs modelled here are those in which the quit channel never
fires (no cancellation), which is the context of claims C5 and C8. -/

/-- The substring `strings.Contains` looks for (hlsdl.go line 193). -/
def resetPattern : List Char := "connection reset by peer".toList

/-- Model of Go's `strings.Contains` on rune lists. -/
def subListOf (needle : List Char) : List Char → Bool
  | [] => needle.isEmpty
  | c :: t => needle.isPrefixOf (c :: t) || subListOf needle t

/-- Does the error text contain the connection-reset pattern? -/
def isResetErr (e : String) : Bool := subListOf resetPattern e.toList

/-- The retry loop for one segment, entered with `tried` attempts
already made.  Returns the surfaced result (`none` = success), the
number of `downloadSegment` calls made, and the number of one-second
sleeps taken. -/
def retryRun (att : Nat → Option String) (tried : Nat) : Option String × Nat × Nat :=
  let t := tried + 1
  match att t with
  | none => (none, 1, 0)
  | some e =>
    if h : isResetErr e = true ∧ t < 3 then
      let r := retryRun att t
      (r.1, r.2.1 + 1, r.2.2 + 1)
    else (some e, 1, 0)
termination_by 3 - tried
decreasing_by simp_wf; omega

/-- Is a `downloadSegment` outcome one the loop retries? -/
def retryable (r : Option String) : Bool :=
  match r with
  | some e => isResetErr e
  | none => false

/-- The attempt whose outcome the loop surfaces, per the spec: the
first of at most 3 attempts that succeeds or fails with a non-reset
error, and the third attempt regardless. -/
def surfaceIndex (att : Nat → Option String) : Nat :=
  if retryable (att 1) = false then 1
  else if retryable (att 2) = false then 2
  else 3

/-- Claim C5: the fetch retry loop surfaces the outcome of attempt
`surfaceIndex att`, makes exactly that many `downloadSegment` calls
(never more than 3), sleeps one second before each retry (one fewer
sleep than calls), retries only outcomes whose error text contains
the connection-reset pattern, and surfaces any other error at the
first attempt without retrying. -/
theorem fetch_retry_policy (att : Nat → Option String) :
    retryRun att 0 = (att (surfaceIndex att), surfaceIndex att, surfaceIndex att - 1) ∧
    surfaceIndex att ≤ 3 ∧ 1 ≤ surfaceIndex att ∧
    (∀ j, 1 ≤ j → j < surfaceIndex att → retryable (att j) = true) ∧
    (retryable (att 1) = false → retryRun att 0 = (att 1, 1, 0)) := by
  cases h1 : att 1 with
  | none =>
    have hs : surfaceIndex att = 1 := by simp [surfaceIndex, retryable, h1]
    refine ⟨?_, by omega, by omega, ?_, ?_⟩
    · rw [hs, retryRun]
      simp [h1]
    · intro j hj1 hj2
      omega
    · intro _
      rw [retryRun]
      simp [h1]
  | some e1 =>
    by_cases hr1 : isResetErr e1 = true
    · have hret1 : retryable (att 1) = true := by simp [retryable, h1, hr1]
      cases h2 : att 2 with
      | none =>
        have hs : surfaceIndex att = 2 := by simp [surfaceIndex, retryable, h1, hr1, h2]
        refine ⟨?_, by omega, by omega, ?_, ?_⟩
        · rw [hs, retryRun]
          simp only [h1]
          rw [dif_pos ⟨hr1, by omega⟩, retryRun]
          simp [h2]
        · intro j hj1 hj2
          have : j = 1 := by omega
          rw [this]
          exact hret1
        · intro hcon
          simp [retryable, hr1] at hcon
      | some e2 =>
        by_cases hr2 : isResetErr e2 = true
        · have hs : surfaceIndex att = 3 := by
            simp [surfaceIndex, retryable, h1, hr1, h2, hr2]
          refine ⟨?_, by omega, by omega, ?_, ?_⟩
          · rw [hs, retryRun]
            simp only [h1]
            rw [dif_pos ⟨hr1, by omega⟩, retryRun]
            simp only [h2]
            rw [dif_pos ⟨hr2, by omega⟩, retryRun]
            cases h3 : att 3 with
            | none => simp
            | some e3 =>
              have hnot : ¬ (isResetErr e3 = true ∧ 0 + 1 + 1 + 1 < 3) := by
                rintro ⟨hh, hlt⟩
                omega
              simp [hnot]
          · intro j hj1 hj2
            have : j = 1 ∨ j = 2 := by omega
            rcases this with rfl | rfl
            · exact hret1
            · simp [retryable, h2, hr2]
          · intro hcon
            simp [retryable, hr1] at hcon
        · have hs : surfaceIndex att = 2 := by
            simp [surfaceIndex, retryable, h1, hr1, h2, hr2]
          refine ⟨?_, by omega, by omega, ?_, ?_⟩
          · rw [hs, retryRun]
            simp only [h1]
            rw [dif_pos ⟨hr1, by omega⟩, retryRun]
            simp only [h2]
            rw [dif_neg (by simp [hr2])]
          · intro j hj1 hj2
            have : j = 1 := by omega
            rw [this]
            exact hret1
          · intro hcon
            simp [retryable, hr1] at hcon
    · have hs : surfaceIndex att = 1 := by simp [surfaceIndex, retryable, h1, hr1]
      refine ⟨?_, by omega, by omega, ?_, ?_⟩
      · rw [hs, retryRun]
        simp only [h1]
        rw [dif_neg (by simp [hr1])]
      · intro j hj1 hj2
        omega
      · intro _
        rw [retryRun]
        simp only [h1]
        rw [dif_neg (by simp [hr1])]

/-- Concrete attempt oracle for the retry witness: the first call
fails with a connection reset, the second succeeds. -/
def wAtt : Nat → Option String := fun k =>
  if k = 1 then some ("read tcp 1.2.3.4: connection reset by peer") else none

/-- Witness for claim C5: on `wAtt` the loop retries once (two calls,
one sleep) and surfaces the second attempt's success. -/
theorem fetch_retry_policy_witness :
    retryRun wAtt 0 = (wAtt (surfaceIndex wAtt), surfaceIndex wAtt, surfaceIndex wAtt - 1) ∧
      surfaceIndex wAtt = 2 ∧ wAtt 2 = none :=
  ⟨(fetch_retry_policy wAtt).1, by decide, rfl⟩

/-! ## Worker loop (hlsdl.go lines 175-207)

Each worker drains the segment channel; a segment marked `Exists` is
not downloaded at all (no GET is issued) but still produces one
success `DownloadResult`; a fatal fetch error produces one error
result and ends the task.  `att s k` is the outcome of the k-th
`downloadSegment` call for the segment with sequence id `s`. -/

/-- One iteration of the worker loop: the result sent for the segment
and the number of `downloadSegment` calls (HTTP GETs) made for it. -/
def processSegment (att : Nat → Nat → Option String) (s : Segment) :
    DownloadResult × Nat :=
  if s.Exists then (⟨none, s.SeqId⟩, 0)
  else
    let r := retryRun (att s.SeqId) 0
    (⟨r.1, s.SeqId⟩, r.2.1)

/-- A worker draining its queue: results sent and total GET count;
the task returns right after sending an error result. -/
def workerRun (att : Nat → Nat → Option String) : List Segment → List DownloadResult × Nat
  | [] => ([], 0)
  | s :: rest =>
    let rc := processSegment att s
    match rc.1.Err with
    | some _ => ([rc.1], rc.2)
    | none =>
      let rs := workerRun att rest
      (rc.1 :: rs.1, rc.2 + rs.2)

/-- Claim C8: a segment marked `Exists` by the resume scan is skipped
by the fetch task — no `downloadSegment` call (hence no HTTP GET) is
made for it — yet it still produces exactly one success completion
signal; consequently a queue of existing segments yields one success
result per segment and zero GETs. -/
theorem exists_segment_skipped (att : Nat → Nat → Option String) (s : Segment)
    (h : s.Exists = true) :
    processSegment att s = (⟨none, s.SeqId⟩, 0) ∧
    (∀ segs : List Segment, (∀ x ∈ segs, x.Exists = true) →
      workerRun att segs = (segs.map (fun x => ⟨none, x.SeqId⟩), 0)) := by
  constructor
  · simp [processSegment, h]
  · intro segs
    induction segs with
    | nil => intro _; rfl
    | cons a rest ih =>
      intro hall
      have ha : a.Exists = true := hall a (by simp)
      have hrest := ih (fun x hx => hall x (by simp [hx]))
      show workerRun att (a :: rest) = _
      unfold workerRun
      simp [processSegment, ha, hrest]

/-- Witness for claim C8: a concrete existing segment is skipped (no
GET) while the oracle would fail any download that were attempted. -/
theorem exists_segment_skipped_witness :
    processSegment (fun _ _ => some ("boom")) ⟨9, "u9", "p9", true⟩ = (⟨none, 9⟩, 0) ∧
      workerRun (fun _ _ => some ("boom")) [⟨9, "u9", "p9", true⟩] = ([⟨none, 9⟩], 0) := by
  have h := exists_segment_skipped (fun _ _ => some ("boom")) ⟨9, "u9", "p9", true⟩ rfl
  exact ⟨h.1, h.2 [⟨9, "u9", "p9", true⟩] (by intro x hx; simp at hx; rw [hx])⟩

/-! ## Reassembler (hlsdl.go lines 255-287)

`join` creates the output file, sorts the segments ascending by
sequence id, and for each segment decrypts, writes to the output and
removes the staging file, aborting on the first error.  The
`decrypt` function lives in a repository file outside `src/`; claims
C1 and C7 treat it as a black box, so it is an oracle yielding each
segment's decrypted bytes (or a fatal decrypt error), and the
`file.Write` / `os.RemoveAll` failures are per-segment oracles too. -/

/-- State of the join: bytes written to the output file so far, and
the staging files still present in the working directory. -/
structure JoinState where
  out : List Nat
  staged : List String
deriving DecidableEq, Repr

structure JoinEnv where
  decrypt : Segment → Except String (List Nat)
  writeErr : Segment → Option String
  removeErr : Segment → Option String

/-- One iteration of the join loop (hlsdl.go lines 270-284): decrypt,
write, remove, in that order, stopping at the first failing step.  On
a write success the decrypted bytes are appended to the output; the
staging file is erased only after a successful removal. -/
def joinStep (env : JoinEnv) (st : JoinState) (s : Segment) :
    Except (String × JoinState) JoinState :=
  match env.decrypt s with
  | .error e => .error (e, st)
  | .ok d =>
    match env.writeErr s with
    | some e => .error (e, st)
    | none =>
      match env.removeErr s with
      | some e => .error (e, { out := st.out ++ d, staged := st.staged })
      | none => .ok { out := st.out ++ d, staged := st.staged.erase s.Path }

/-- The join loop over a segment list. -/
def joinLoop (env : JoinEnv) : List Segment → JoinState → Option String × JoinState
  | [], st => (none, st)
  | s :: rest, st =>
    match joinStep env st s with
    | .ok st' => joinLoop env rest st'
    | .error (e, st') => (some e, st')

def leSeg (a b : Segment) : Prop := a.SeqId ≤ b.SeqId

instance : DecidableRel leSeg := fun a b => Nat.decLe a.SeqId b.SeqId

instance : IsTotal Segment leSeg := ⟨fun a b => Nat.le_total a.SeqId b.SeqId⟩

instance : IsTrans Segment leSeg := ⟨fun _ _ _ => Nat.le_trans⟩

def ltSeg (a b : Segment) : Prop := a.SeqId < b.SeqId

instance : IsAntisymm Segment ltSeg :=
  ⟨fun _ _ h1 h2 => absurd h2 (Nat.lt_asymm h1)⟩

/-- The `sort.Slice` call of `join` (hlsdl.go lines 266-268): since a
playlist's sequence ids are unique, every correct sort produces the
same list, here given by insertion sort on `SeqId`. -/
def sortSegs (l : List Segment) : List Segment := List.insertionSort leSeg l

/-- `join` (hlsdl.go lines 255-287): the output file has just been
created (truncated to empty) and every segment's staging file is
present; then the loop runs over the sorted segments. -/
def joinRun (env : JoinEnv) (segs : List Segment) : Option String × JoinState :=
  joinLoop env (sortSegs segs) { out := [], staged := segs.map (fun s => s.Path) }

/-- The decrypted bytes of a segment (empty on a decrypt error). -/
def decBytes (env : JoinEnv) (s : Segment) : List Nat :=
  match env.decrypt s with
  | .ok d => d
  | .error _ => []

def decOk (env : JoinEnv) (s : Segment) : Bool :=
  match env.decrypt s with
  | .ok _ => true
  | .error _ => false

/-- Decrypt and write both succeed for this segment. -/
def dwOk (env : JoinEnv) (s : Segment) : Bool :=
  decOk env s && (env.writeErr s).isNone

/-- All three steps succeed for this segment. -/
def stepOk (env : JoinEnv) (s : Segment) : Bool :=
  dwOk env s && (env.removeErr s).isNone

/-- Erase the given paths one after another, as the successive
`os.RemoveAll` calls do. -/
def eraseList (st : List String) (ps : List String) : List String :=
  ps.foldl (fun acc p => acc.erase p) st

theorem joinLoop_ok (env : JoinEnv) :
    ∀ (l : List Segment) (st : JoinState), (∀ s ∈ l, stepOk env s = true) →
      joinLoop env l st =
        (none, { out := st.out ++ (l.map (decBytes env)).flatten,
                 staged := eraseList st.staged (l.map (fun s => s.Path)) }) := by
  intro l
  induction l with
  | nil =>
    intro st _
    simp [joinLoop, eraseList]
  | cons s rest ih =>
    intro st hall
    have hs := hall s (by simp)
    rw [stepOk, Bool.and_eq_true, dwOk, Bool.and_eq_true] at hs
    obtain ⟨⟨hdec, hwr⟩, hrm⟩ := hs
    cases hd : env.decrypt s with
    | error e0 =>
      rw [decOk, hd] at hdec
      simp at hdec
    | ok d =>
      have hw : env.writeErr s = none := Option.isNone_iff_eq_none.mp hwr
      have hr : env.removeErr s = none := Option.isNone_iff_eq_none.mp hrm
      have hstep : joinStep env st s = .ok { out := st.out ++ d, staged := st.staged.erase s.Path } := by
        unfold joinStep
        rw [hd, hw, hr]
      show joinLoop env (s :: rest) st = _
      unfold joinLoop
      rw [hstep]
      show joinLoop env rest _ = _
      rw [ih _ (fun x hx => hall x (by simp [hx]))]
      have hdb : decBytes env s = d := by unfold decBytes; rw [hd]
      simp only [List.map_cons, List.flatten_cons, hdb]
      refine congrArg (Prod.mk none) ?_
      refine congrArg₂ JoinState.mk ?_ rfl
      rw [List.append_assoc]

theorem pairwise_lt_of_sorted_nodup :
    ∀ l : List Segment, List.Sorted leSeg l → (l.map Segment.SeqId).Nodup →
      List.Pairwise ltSeg l := by
  intro l
  induction l with
  | nil => intro _ _; exact List.Pairwise.nil
  | cons a t ih =>
    intro hs hnd
    have hne : List.Pairwise (fun x y : Segment => x.SeqId ≠ y.SeqId) (a :: t) :=
      (List.pairwise_map).mp hnd
    rcases List.pairwise_cons.mp hs with ⟨h1, hs2⟩
    rcases List.pairwise_cons.mp hne with ⟨h2, hne2⟩
    refine List.pairwise_cons.mpr ⟨fun b hb => Nat.lt_of_le_of_ne (h1 b hb) (h2 b hb), ?_⟩
    exact ih hs2 ((List.pairwise_map).mpr hne2)

theorem sortSegs_eq_of_perm (l1 l2 : List Segment) (hp : l1.Perm l2)
    (hnd : (l1.map Segment.SeqId).Nodup) : sortSegs l1 = sortSegs l2 := by
  have hperm1 : (sortSegs l1).Perm l1 := List.perm_insertionSort leSeg l1
  have hperm2 : (sortSegs l2).Perm l2 := List.perm_insertionSort leSeg l2
  have hp12 : (sortSegs l1).Perm (sortSegs l2) :=
    hperm1.trans (hp.trans hperm2.symm)
  have hnd1 : ((sortSegs l1).map Segment.SeqId).Nodup :=
    ((hperm1.map Segment.SeqId).nodup_iff).mpr hnd
  have hnd2 : ((sortSegs l2).map Segment.SeqId).Nodup :=
    ((hperm2.map Segment.SeqId).nodup_iff).mpr (((hp.map Segment.SeqId).nodup_iff).mp hnd)
  exact List.eq_of_perm_of_sorted hp12
    (pairwise_lt_of_sorted_nodup _ (List.sorted_insertionSort leSeg l1) hnd1)
    (pairwise_lt_of_sorted_nodup _ (List.sorted_insertionSort leSeg l2) hnd2)

/-- Claim C1: when the join succeeds, the output file's bytes are the
concatenation of the segments' decrypted bytes in ascending sequence
id order, and the order the fetch tasks completed in (modelled as any
permutation of the segment list reaching the join) never affects the
result: error and output agree across permutations. -/
theorem join_output_ordered (env : JoinEnv) (l1 l2 : List Segment)
    (hperm : l1.Perm l2) (hnd : (l1.map Segment.SeqId).Nodup)
    (hok : ∀ s ∈ l1, stepOk env s = true) :
    (joinRun env l1).1 = none ∧
    (joinRun env l1).2.out = ((sortSegs l1).map (decBytes env)).flatten ∧
    (joinRun env l2).2.out = (joinRun env l1).2.out ∧
    (joinRun env l2).1 = (joinRun env l1).1 := by
  have hsorteq := sortSegs_eq_of_perm l1 l2 hperm hnd
  have hok1 : ∀ s ∈ sortSegs l1, stepOk env s = true :=
    fun s hs => hok s ((List.perm_insertionSort leSeg l1).subset hs)
  have h1 := joinLoop_ok env (sortSegs l1)
    { out := [], staged := l1.map (fun s => s.Path) } hok1
  have h2 := joinLoop_ok env (sortSegs l2)
    { out := [], staged := l2.map (fun s => s.Path) }
    (by rw [← hsorteq]; exact hok1)
  unfold joinRun
  rw [h1, h2, hsorteq]
  simp

/-- Join environment for the C1 witness: every step succeeds and a
segment decrypts to `SeqId` copies of its own sequence id, so the
concatenation order is visible in the output. -/
def wJoinEnv : JoinEnv where
  decrypt := fun s => .ok (List.replicate s.SeqId s.SeqId)
  writeErr := fun _ => none
  removeErr := fun _ => none

def wjs1 : Segment := ⟨1, "u1", "q1", false⟩

def wjs2 : Segment := ⟨2, "u2", "q2", false⟩

/-- Witness for claim C1: two segments handed to the join in reversed
completion order produce the same, sequence-ordered output as the
in-order run. -/
theorem join_output_ordered_witness :
    (joinRun wJoinEnv [wjs2, wjs1]).1 = none ∧
    (joinRun wJoinEnv [wjs2, wjs1]).2.out = ((sortSegs [wjs2, wjs1]).map (decBytes wJoinEnv)).flatten ∧
    (joinRun wJoinEnv [wjs1, wjs2]).2.out = (joinRun wJoinEnv [wjs2, wjs1]).2.out ∧
    (joinRun wJoinEnv [wjs1, wjs2]).1 = (joinRun wJoinEnv [wjs2, wjs1]).1 :=
  join_output_ordered wJoinEnv [wjs2, wjs1] [wjs1, wjs2] (by decide) (by decide) (by decide)

/-- Claim C7: if the join loop fails, the segment list splits into a
fully processed prefix, the failing segment and an untouched suffix:
every staging file deleted is one of the prefix's (each deleted only
after its bytes were appended to the output), the output holds
exactly the prefix's decrypted bytes — plus the failing segment's own
bytes exactly when its decrypt and write succeeded and only its
removal failed — and nothing of the suffix was processed. -/
theorem join_failure_frame (env : JoinEnv) :
    ∀ (L : List Segment) (st0 : JoinState) (e : String),
      (joinLoop env L st0).1 = some e →
      ∃ pre s post, L = pre ++ s :: post ∧
        (∀ x ∈ pre, stepOk env x = true) ∧ stepOk env s = false ∧
        (joinLoop env L st0).2.staged = eraseList st0.staged (pre.map (fun x => x.Path)) ∧
        (dwOk env s = false →
          (joinLoop env L st0).2.out = st0.out ++ (pre.map (decBytes env)).flatten) ∧
        (dwOk env s = true →
          (env.removeErr s).isSome = true ∧
          (joinLoop env L st0).2.out
            = st0.out ++ ((pre.map (decBytes env)).flatten ++ decBytes env s)) := by
  intro L
  induction L with
  | nil =>
    intro st0 e h
    simp [joinLoop] at h
  | cons s rest ih =>
    intro st0 e h
    by_cases hstep : stepOk env s = true
    · rw [stepOk, Bool.and_eq_true, dwOk, Bool.and_eq_true] at hstep
      obtain ⟨⟨hdec, hwr⟩, hrm⟩ := hstep
      cases hd : env.decrypt s with
      | error e0 =>
        rw [decOk, hd] at hdec
        simp at hdec
      | ok d =>
        have hw : env.writeErr s = none := Option.isNone_iff_eq_none.mp hwr
        have hr : env.removeErr s = none := Option.isNone_iff_eq_none.mp hrm
        have hstep1 : joinStep env st0 s
            = .ok { out := st0.out ++ d, staged := st0.staged.erase s.Path } := by
          unfold joinStep
          rw [hd, hw, hr]
        have hL : joinLoop env (s :: rest) st0
            = joinLoop env rest { out := st0.out ++ d, staged := st0.staged.erase s.Path } := by
          rw [joinLoop, hstep1]
        rw [hL] at h
        obtain ⟨pre, s2, post, hsplit, hpre, hfail, hst, hc1, hc2⟩ := ih _ e h
        have hdb : decBytes env s = d := by unfold decBytes; rw [hd]
        refine ⟨s :: pre, s2, post, by rw [List.cons_append, hsplit], ?_, hfail, ?_, ?_, ?_⟩
        · intro x hx
          rcases List.mem_cons.mp hx with rfl | hx2
          · rw [stepOk, dwOk, decOk, hd, hw, hr]
            rfl
          · exact hpre x hx2
        · rw [hL, hst]
          rfl
        · intro hdw
          rw [hL, hc1 hdw, List.map_cons, List.flatten_cons, hdb, List.append_assoc]
        · intro hdw
          obtain ⟨hrs, hout⟩ := hc2 hdw
          refine ⟨hrs, ?_⟩
          rw [hL, hout, List.map_cons, List.flatten_cons, hdb]
          rw [List.append_assoc, List.append_assoc]
    · have hstepf : stepOk env s = false := by
        cases hq : stepOk env s
        · rfl
        · exact absurd hq hstep
      cases hd : env.decrypt s with
      | error e0 =>
        have hL : joinLoop env (s :: rest) st0 = (some e0, st0) := by
          show joinLoop env (s :: rest) st0 = _
          unfold joinLoop joinStep
          rw [hd]
        rw [hL]
        refine ⟨[], s, rest, rfl, by simp, hstepf, rfl, ?_, ?_⟩
        · intro _
          simp
        · intro hdw
          rw [dwOk, Bool.and_eq_true, decOk, hd] at hdw
          simp at hdw
      | ok d =>
        cases hw : env.writeErr s with
        | some e0 =>
          have hL : joinLoop env (s :: rest) st0 = (some e0, st0) := by
            show joinLoop env (s :: rest) st0 = _
            unfold joinLoop joinStep
            rw [hd, hw]
          rw [hL]
          refine ⟨[], s, rest, rfl, by simp, hstepf, rfl, ?_, ?_⟩
          · intro _
            simp
          · intro hdw
            rw [dwOk, Bool.and_eq_true, hw] at hdw
            simp at hdw
        | none =>
          cases hr : env.removeErr s with
          | none =>
            exfalso
            apply hstep
            rw [stepOk, dwOk, decOk, hd, hw, hr]
            rfl
          | some e0 =>
            have hL : joinLoop env (s :: rest) st0
                = (some e0, { out := st0.out ++ d, staged := st0.staged }) := by
              show joinLoop env (s :: rest) st0 = _
              unfold joinLoop joinStep
              rw [hd, hw, hr]
            rw [hL]
            have hdb : decBytes env s = d := by unfold decBytes; rw [hd]
            refine ⟨[], s, rest, rfl, by simp, hstepf, rfl, ?_, ?_⟩
            · intro hdw
              simp [dwOk, decOk, hd, hw] at hdw
            · intro _
              refine ⟨by rw [hr]; rfl, ?_⟩
              rw [hdb]
              simp

/-- Join environment for the C7 witness: segment 2's decrypt fails,
everything else succeeds. -/
def wFailEnv : JoinEnv where
  decrypt := fun s => if s.SeqId = 2 then .error ("bad key") else .ok [7]
  writeErr := fun _ => none
  removeErr := fun _ => none

/-- Witness for claim C7: joining two segments where the second's
decrypt fails leaves the first segment's bytes in the output, its
staging file removed, and the failing segment's staging file and the
rest untouched. -/
theorem join_failure_frame_witness :
    ∃ pre s post, ([wjs1, wjs2] : List Segment) = pre ++ s :: post ∧
      (∀ x ∈ pre, stepOk wFailEnv x = true) ∧ stepOk wFailEnv s = false ∧
      (joinLoop wFailEnv [wjs1, wjs2] { out := [], staged := ["q1", "q2"] }).2.staged
        = eraseList ["q1", "q2"] (pre.map (fun x => x.Path)) ∧
      (dwOk wFailEnv s = false →
        (joinLoop wFailEnv [wjs1, wjs2] { out := [], staged := ["q1", "q2"] }).2.out
          = [] ++ (pre.map (decBytes wFailEnv)).flatten) ∧
      (dwOk wFailEnv s = true →
        (wFailEnv.removeErr s).isSome = true ∧
        (joinLoop wFailEnv [wjs1, wjs2] { out := [], staged := ["q1", "q2"] }).2.out
          = [] ++ ((pre.map (decBytes wFailEnv)).flatten ++ decBytes wFailEnv s)) :=
  join_failure_frame wFailEnv [wjs1, wjs2] { out := [], staged := ["q1", "q2"] }
    "bad key" (by decide)

/-! ## Segment fetcher, single attempt (hlsdl.go lines 79-106)

`downloadSegment` builds a GET request (`newRequest`, a repository
helper outside `src/`, abstracted as an oracle), performs it, rejects
any non-200 status with `errors.New(res.Status)` (the error carries
the HTTP status line), creates the staging file, and streams the body
into it with `io.Copy`.  The staging directory is a map from path to
file bytes; `os.Create` truncates, and a failing copy leaves
whatever prefix was written (`partialBytes`). -/

structure GoResponse where
  statusCode : Nat
  status : String
  body : List Nat
deriving DecidableEq, Repr

structure FetchEnv where
  buildReq : Except String Unit
  doReq : Except String GoResponse
  createFile : Except String Unit
  copyRes : Except String Unit
  partialBytes : List Nat

/-- `downloadSegment` (hlsdl.go lines 79-106): the surfaced error
(`none` = nil) and the staging directory after the call. -/
def downloadSegment (env : FetchEnv) (s : Segment) (fs : String → Option (List Nat)) :
    Option String × (String → Option (List Nat)) :=
  match env.buildReq with
  | .error e => (some e, fs)
  | .ok _ =>
    match env.doReq with
    | .error e => (some e, fs)
    | .ok res =>
      if res.statusCode ≠ 200 then (some res.status, fs)
      else
        match env.createFile with
        | .error e => (some e, fs)
        | .ok _ =>
          match env.copyRes with
          | .error e => (some e, fun p => if p = s.Path then some env.partialBytes else fs p)
          | .ok _ => (none, fun p => if p = s.Path then some res.body else fs p)

/-- Claim C6: `downloadSegment` returns nil exactly when the request
builds, the GET succeeds with status 200, the staging file is created
and the body streams without error; a non-200 response yields an
error carrying the HTTP status; and on success the segment's staging
file holds exactly the response body. -/
theorem downloadSegment_cases (env : FetchEnv) (s : Segment)
    (fs : String → Option (List Nat)) :
    ((downloadSegment env s fs).1 = none ↔
      (env.buildReq = .ok () ∧
        (∃ res : GoResponse, env.doReq = .ok res ∧ res.statusCode = 200) ∧
        env.createFile = .ok () ∧ env.copyRes = .ok ())) ∧
    (∀ res : GoResponse, env.buildReq = .ok () → env.doReq = .ok res →
      res.statusCode ≠ 200 → (downloadSegment env s fs).1 = some res.status) ∧
    ((downloadSegment env s fs).1 = none →
      ∀ res : GoResponse, env.doReq = .ok res →
        (downloadSegment env s fs).2 s.Path = some res.body) := by
  cases hb : env.buildReq with
  | error e =>
    refine ⟨?_, ?_, ?_⟩
    · simp [downloadSegment, hb]
    · intro res hb2 _ _
      exact absurd hb2 (by simp)
    · intro hnone
      rw [downloadSegment] at hnone
      rw [hb] at hnone
      simp at hnone
  | ok u =>
    cases u
    cases hdo : env.doReq with
    | error e =>
      refine ⟨?_, ?_, ?_⟩
      · simp [downloadSegment, hb, hdo]
      · intro res _ hdo2
        exact absurd hdo2 (by simp)
      · intro hnone
        rw [downloadSegment] at hnone
        rw [hb, hdo] at hnone
        simp at hnone
    | ok res =>
      by_cases h200 : res.statusCode = 200
      · cases hcr : env.createFile with
        | error e =>
          refine ⟨?_, ?_, ?_⟩
          · simp [downloadSegment, hb, hdo, h200, hcr]
          · intro res2 _ hdo2 hne
            have : res2 = res := by simpa using hdo2.symm
            rw [this] at hne
            exact absurd h200 hne
          · intro hnone
            rw [downloadSegment] at hnone
            rw [hb, hdo, hcr] at hnone
            simp [h200] at hnone
        | ok u2 =>
          cases u2
          cases hcp : env.copyRes with
          | error e =>
            refine ⟨?_, ?_, ?_⟩
            · simp [downloadSegment, hb, hdo, h200, hcr, hcp]
            · intro res2 _ hdo2 hne
              have : res2 = res := by simpa using hdo2.symm
              rw [this] at hne
              exact absurd h200 hne
            · intro hnone
              rw [downloadSegment] at hnone
              rw [hb, hdo, hcr, hcp] at hnone
              simp [h200] at hnone
          | ok u3 =>
            cases u3
            refine ⟨?_, ?_, ?_⟩
            · simp [downloadSegment, hb, hdo, h200, hcr, hcp]
            · intro res2 _ hdo2 hne
              have : res2 = res := by simpa using hdo2.symm
              rw [this] at hne
              exact absurd h200 hne
            · intro _ res2 hdo2
              have hr2 : res2 = res := by simpa using hdo2.symm
              rw [hr2, downloadSegment, hb, hdo]
              simp [h200, hcr, hcp]
      · refine ⟨?_, ?_, ?_⟩
        · constructor
          · intro hnone
            rw [downloadSegment] at hnone
            rw [hb, hdo] at hnone
            simp [h200] at hnone
          · rintro ⟨_, ⟨res2, hdo2, h2002⟩, _⟩
            have : res2 = res := by simpa using hdo2.symm
            rw [this] at h2002
            exact absurd h2002 h200
        · intro res2 _ hdo2 _
          have : res2 = res := by simpa using hdo2.symm
          rw [this, downloadSegment, hb, hdo]
          simp [h200]
        · intro hnone
          rw [downloadSegment] at hnone
          rw [hb, hdo] at hnone
          simp [h200] at hnone

/-- Fetch environment for the C6 witness: everything succeeds with a
200 response whose body is three bytes. -/
def wFetchEnv : FetchEnv where
  buildReq := .ok ()
  doReq := .ok { statusCode := 200, status := "200 OK", body := [10, 20, 30] }
  createFile := .ok ()
  copyRes := .ok ()
  partialBytes := []

/-- Witness for claim C6: a successful 200 fetch returns nil and the
staging file holds exactly the body. -/
theorem downloadSegment_cases_witness :
    (downloadSegment wFetchEnv wjs1 (fun _ => none)).1 = none ∧
      (downloadSegment wFetchEnv wjs1 (fun _ => none)).2 wjs1.Path = some [10, 20, 30] := by
  have h := downloadSegment_cases wFetchEnv wjs1 (fun _ => none)
  have hnone : (downloadSegment wFetchEnv wjs1 (fun _ => none)).1 = none :=
    h.1.mpr ⟨rfl, ⟨{ statusCode := 200, status := "200 OK", body := [10, 20, 30] }, rfl, rfl⟩,
      rfl, rfl⟩
  exact ⟨hnone, h.2.2 hnone _ rfl⟩

/-! ## Worker-pool coordinator (hlsdl.go lines 167-253)

One concurrent execution of `downloadSegments` is modelled as a trace
of atomic events in the order they happen.  `WFTrace` holds the
orderings Go's channel and `select` semantics guarantee for this code:

* `r1At`: a worker's quit check falls through (`checkPass`, the
  `default` branch of the select at lines 186-190) only for a segment
  some dispatch handed over earlier, and only if `quitChan` is not yet
  closed — receiving on a closed channel is always ready, and `select`
  never takes `default` while a case is ready;
* `r2At`: every `downloadSegment` call (`fetch`) is preceded by a
  quit check for that segment — the `DOWNLOAD` loop re-checks before
  every attempt (lines 183-191);
* `r0At`: the dispatch goroutine (lines 209-223) sends each segment
  at most once.  Note that after `close(quitChan)` its `select`
  chooses uniformly among ready cases, so a dispatch *after* `close`
  is possible when a worker is blocked on the receive — which is why
  claim C2 as stated fails;
* the coordinator (lines 237-251) consumes result/finished signals
  one at a time and returns at the first error (after closing
  `quitChan`) or at `finished`, so in the subsequence of its
  receptions a stopping event is last, and `close` happens only when
  an error result was observed. -/

inductive Ev where
  | close : Ev
  | dispatch : Nat → Ev
  | checkPass : Nat → Ev
  | fetch : Nat → Option String → Ev
  | recv : Option String → Nat → Ev
  | finished : Ev
deriving DecidableEq, Repr

inductive AggEv where
  | fin : AggEv
  | result : Option String → Nat → AggEv
deriving DecidableEq, Repr

/-- The subsequence of events the coordinator's select consumes. -/
def aggEvents (t : List Ev) : List AggEv :=
  t.filterMap fun e =>
    match e with
    | .recv r s => some (.result r s)
    | .finished => some .fin
    | _ => none

/-- The coordinator loop (hlsdl.go lines 237-251) over its consumed
events: nil at `finished`, the first error result is returned (the
loop closes `quitChan` and exits there), successes only advance the
progress bar. -/
def aggregate : List AggEv → Option String
  | [] => none
  | .fin :: _ => none
  | .result (some e) _ :: _ => some e
  | .result none _ :: rest => aggregate rest

def coordReturn (t : List Ev) : Option String := aggregate (aggEvents t)

/-- The errors the coordinator observes (error results received), in
order of reception. -/
def observedErrors (t : List Ev) : List String :=
  t.filterMap fun e =>
    match e with
    | .recv (some er) _ => some er
    | _ => none

def firstObservedError (t : List Ev) : Option String := (observedErrors t).head?

def isStopEv (a : AggEv) : Bool :=
  match a with
  | .fin => true
  | .result (some _) _ => true
  | .result none _ => false

/-- Each segment is dispatched at most once. -/
def r0At (t : List Ev) (i j : Nat) : Bool :=
  match t.get? i, t.get? j with
  | some (.dispatch s1), some (.dispatch s2) => s1 != s2 || i == j
  | _, _ => true

/-- A passed quit check has an earlier dispatch of its segment and no
earlier close. -/
def r1At (t : List Ev) (i : Nat) : Bool :=
  match t.get? i with
  | some (.checkPass s) =>
      ((List.range i).any (fun j => t.get? j == some (.dispatch s))) &&
      ((List.range i).all (fun j => t.get? j != some Ev.close))
  | _ => true

/-- Every fetch has an earlier passed quit check for its segment. -/
def r2At (t : List Ev) (i : Nat) : Bool :=
  match t.get? i with
  | some (.fetch s _) => (List.range i).any (fun j => t.get? j == some (.checkPass s))
  | _ => true

/-- A stopping event of the coordinator's subsequence is its last. -/
def stopIsLast (l : List AggEv) : Prop :=
  ∀ i, i < l.length → ((l.get? i).map isStopEv = some true) → i + 1 = l.length

/-- Well-formedness of a trace of one `downloadSegments` execution. -/
def WFTrace (t : List Ev) : Prop :=
  (∀ i, i < t.length → ∀ j, j < t.length → r0At t i j = true) ∧
  (∀ i, i < t.length → r1At t i = true) ∧
  (∀ i, i < t.length → r2At t i = true) ∧
  (firstObservedError t ≠ none → Ev.close ∈ t) ∧
  stopIsLast (aggEvents t)

instance (t : List Ev) : Decidable (WFTrace t) := by
  unfold WFTrace stopIsLast
  infer_instance

def errOfAgg : AggEv → Option String
  | .result (some e) _ => some e
  | _ => none

theorem observedErrors_eq (t : List Ev) :
    observedErrors t = (aggEvents t).filterMap errOfAgg := by
  unfold observedErrors aggEvents
  induction t with
  | nil => rfl
  | cons e rest ih =>
    cases e with
    | recv r s =>
      cases r with
      | none => simpa [List.filterMap_cons, errOfAgg] using ih
      | some er => simpa [List.filterMap_cons, errOfAgg] using ih
    | close => simpa [List.filterMap_cons] using ih
    | dispatch s => simpa [List.filterMap_cons] using ih
    | checkPass s => simpa [List.filterMap_cons] using ih
    | fetch s r => simpa [List.filterMap_cons] using ih
    | finished => simpa [List.filterMap_cons, errOfAgg] using ih

theorem stopIsLast_tail {a : AggEv} {l : List AggEv} (h : stopIsLast (a :: l)) :
    stopIsLast l := by
  intro i hi hstop
  have := h (i + 1) (by simp; omega) (by simpa using hstop)
  simp at this
  omega

theorem aggregate_eq_head (l : List AggEv) (hstop : stopIsLast l) :
    aggregate l = (l.filterMap errOfAgg).head? := by
  induction l with
  | nil => rfl
  | cons a rest ih =>
    cases a with
    | fin =>
      have h0 := hstop 0 (by simp) (by simp [isStopEv])
      have hr : rest.length = 0 := by rw [List.length_cons] at h0; omega
      have : rest = [] := List.eq_nil_of_length_eq_zero hr
      subst this
      rfl
    | result r s =>
      cases r with
      | some e => simp [aggregate, errOfAgg, List.filterMap_cons]
      | none =>
        have h1 : aggregate (AggEv.result none s :: rest) = aggregate rest := rfl
        rw [h1, ih (stopIsLast_tail hstop)]
        simp [errOfAgg, List.filterMap_cons]

theorem lt_length_of_get?_some {α : Type} {l : List α} {n : Nat} {a : α}
    (h : l.get? n = some a) : n < l.length := by
  by_contra hn
  rw [List.get?_eq_none.mpr (by omega)] at h
  exact absurd h (by simp)

/-- Claim C2 (amended): in every well-formed trace the coordinator
returns the first error it observes (errors received later are
discarded — they never change the return value), cancellation is
broadcast (the quit channel is closed) whenever an error is observed,
and no segment dispatched after cancellation begins is ever fetched.
As stated, the claim also forbade *dispatching* after cancellation
begins, which the code does not guarantee (see the counterexample):
after `close(quitChan)` the dispatcher's `select` may still choose
its ready send over the ready quit receive.  An in-flight fetch whose
quit check preceded the close may likewise still run to completion;
only segments handed over after the close are never fetched. -/
theorem coordinator_fail_fast (t : List Ev) (hwf : WFTrace t) :
    coordReturn t = firstObservedError t ∧
    (firstObservedError t ≠ none → Ev.close ∈ t) ∧
    (∀ (s : Nat) (i j : Nat), i < t.length → j < t.length → i < j →
      t.get? i = some Ev.close → t.get? j = some (Ev.dispatch s) →
      ∀ r : Option String, Ev.fetch s r ∉ t) := by
  obtain ⟨h0, h1, h2, h4, h5⟩ := hwf
  refine ⟨?_, h4, ?_⟩
  · rw [coordReturn, aggregate_eq_head (aggEvents t) h5, ← observedErrors_eq]
    rfl
  · intro s i j hi hj hij hclose hdisp r hmem
    obtain ⟨m, hm⟩ := List.mem_iff_get?.mp hmem
    have hmlen : m < t.length := lt_length_of_get?_some hm
    have hr2 := h2 m hmlen
    unfold r2At at hr2
    rw [hm] at hr2
    obtain ⟨c, hcmem, hc⟩ := List.any_eq_true.mp hr2
    have hcm : c < m := List.mem_range.mp hcmem
    have hcheck : t.get? c = some (.checkPass s) := by simpa using hc
    have hclen : c < t.length := lt_length_of_get?_some hcheck
    have hr1 := h1 c hclen
    unfold r1At at hr1
    rw [hcheck] at hr1
    rw [Bool.and_eq_true] at hr1
    obtain ⟨h1a, h1b⟩ := hr1
    obtain ⟨dIdx, hdmem, hd⟩ := List.any_eq_true.mp h1a
    have hdc : dIdx < c := List.mem_range.mp hdmem
    have hdisp2 : t.get? dIdx = some (.dispatch s) := by simpa using hd
    have hdlen : dIdx < t.length := lt_length_of_get?_some hdisp2
    have hr0 := h0 dIdx hdlen j hj
    unfold r0At at hr0
    rw [hdisp2, hdisp] at hr0
    have hdj : dIdx = j := by simpa using hr0
    have hic : i < c := by omega
    have hclosed := List.all_eq_true.mp h1b i (List.mem_range.mpr hic)
    rw [hclose] at hclosed
    simp at hclosed

/-- A realizable trace: worker A fetches segment 7, which fails; the
coordinator receives the error and closes `quitChan`; the dispatcher,
already blocked offering segment 5 to worker B, wins the select race
and still hands segment 5 over after the close.  (Worker B then sees
the closed quit channel and exits without fetching it.) -/
def wTrace : List Ev :=
  [.dispatch 7, .checkPass 7, .fetch 7 (some ("boom")),
   .recv (some ("boom")) 7, .close, .dispatch 5]

/-- Claim C2 counterexample: the claim as stated says no segment is
dispatched after cancellation begins; `wTrace` is a well-formed trace
of the pool in which segment 5 is dispatched (position 5) strictly
after the close (position 4). -/
theorem dispatch_after_close_possible :
    WFTrace wTrace ∧ wTrace.get? 4 = some Ev.close ∧
      wTrace.get? 5 = some (Ev.dispatch 5) :=
  ⟨by decide, rfl, rfl⟩

/-- Witness for claim C2's amended theorem: on `wTrace` the
coordinator returns the one observed error, closed the quit channel,
and the late-dispatched segment 5 is never fetched. -/
theorem coordinator_fail_fast_witness :
    coordReturn wTrace = some ("boom") ∧ Ev.close ∈ wTrace ∧
      (∀ r : Option String, Ev.fetch 5 r ∉ wTrace) := by
  have h := coordinator_fail_fast wTrace (by decide)
  refine ⟨?_, ?_, ?_⟩
  · rw [h.1]
    decide
  · exact h.2.1 (by decide)
  · exact h.2.2 5 4 5 (by decide) (by decide) (by decide) (by decide) (by decide)

end Hlsdl
